import Mathlib

/-!
# Verification of the `ruru` partial-matching core

Shallow embedding of `src/ruru/base/matching.py`: the prefix matcher
`pmatch` and the argument resolver `match_arg` (its `str` handler and its
`Iterable` handler), together with proofs of the stated properties.

Python strings are embedded as Lean `String`; `str.startswith` is prefix
comparison over the string's code points (`List Char`).  Python exceptions
are embedded as a pair of the exception class name and the message
(`PyErr`); every failure in the source raises `ValueError`.
-/

namespace Ruru

/-- Python's `candidate.startswith(query)`: code-point prefix test. -/
def startswith (s pre : String) : Bool :=
  pre.toList.isPrefixOf s.toList

/-- Python's `list.index(x)` wrapped in `try`: the index of the first exact
occurrence, or `none` when `x` is absent (the `ValueError` branch). -/
def listIndex (x : String) : List String → Option Nat
  | [] => none
  | c :: rest => if c = x then some 0 else (listIndex x rest).map (· + 1)

/-- Python's `[i for i, choice in enumerate(table_list) if choice.startswith(x)]`:
the indices of all candidates having `x` as a prefix, in order. -/
def prefixHits (x : String) : List String → List Nat
  | [] => []
  | c :: rest =>
    let tail := (prefixHits x rest).map (· + 1)
    if startswith c x then 0 :: tail else tail

/-- Embeds `pmatch(x, table)` from `matching.py` (lines 171-210): `none` for no
match, `some (-1)` for an ambiguous match, `some i` (with `i ≥ 0`) for the
matched index.  Empty query short-circuits; exact match is checked before
prefix matches. -/
def pmatch (x : String) (table : List String) : Option Int :=
  if x = "" then
    none
  else
    match listIndex x table with
    | some i => some (i : Int)
    | none =>
      match prefixHits x table with
      | [] => none
      | [i] => some (i : Int)
      | _ => some (-1)

/-- A raised Python exception: class name and message. -/
structure PyErr where
  etype : String
  msg : String
deriving DecidableEq, Repr

/-- Embeds `raise ValueError(m)`. -/
def valueError (m : String) : PyErr :=
  ⟨"ValueError", m⟩

/-- The value returned by `_match_arg`: `str` or `list[str]`. -/
inductive MatchResult where
  | single (s : String)
  | several (l : List String)
deriving DecidableEq, Repr

/-- The strings carried by a `MatchResult`. -/
def MatchResult.toList : MatchResult → List String
  | .single s => [s]
  | .several l => l

/-- Python's `list(dict.fromkeys(l))` with an explicit `seen` accumulator:
stable deduplication keeping first occurrences. -/
def dedupAux (seen : List String) : List String → List String
  | [] => []
  | x :: xs => if x ∈ seen then dedupAux seen xs else x :: dedupAux (x :: seen) xs

/-- Python's `list(dict.fromkeys(l))`. -/
def dedupKeys (l : List String) : List String :=
  dedupAux [] l

/-- Error message of the no-match branch (`matching.py` lines 88-94). -/
def noMatchMsg (arg : String) (choices : List String) : String :=
  "The provided argument '" ++ arg ++ "' is not valid. " ++
    "Available choices are: " ++ String.intercalate ", " choices ++ "."

/-- Error message of the ambiguous branch (`matching.py` lines 103-109). -/
def ambiguousMsg (arg : String) (hits : List String) : String :=
  "The argument '" ++ arg ++ "' matches multiple choices: " ++
    String.intercalate ", " hits ++ ". Be more specific."

/-- Error message of the iterable-policy branch (`matching.py` lines 145-150). -/
def policyMsg : String :=
  "Iterable input is only allowed when several_ok=True. " ++
    "Use several_ok=True or provide a single string argument."

/-- Error message wrapping a failing batch element (`matching.py` line 165). -/
def batchElemMsg (i : Nat) (a : String) (inner : String) : String :=
  "Error in iterable element " ++ toString i ++ " ('" ++ a ++ "'): " ++ inner

/-- Body of the `str` handler of `_match_arg` after the dedup line:
dispatch on the `pmatch` outcome (`matching.py` lines 85-115). -/
def matchArgStrCore (arg : String) (choices : List String) (severalOk : Bool) :
    Except PyErr MatchResult :=
  match pmatch arg choices with
  | none => .error (valueError (noMatchMsg arg choices))
  | some idx =>
    if idx = -1 then
      if severalOk then
        .ok (.several (choices.filter (fun c => startswith c arg)))
      else
        .error (valueError (ambiguousMsg arg (choices.filter (fun c => startswith c arg))))
    else
      if severalOk then
        .ok (.several [choices.getD idx.toNat ""])
      else
        .ok (.single (choices.getD idx.toNat ""))

/-- The `str` handler of `_match_arg` (`matching.py` lines 63-115):
dedup the choices, then dispatch on the `pmatch` outcome. -/
def matchArgStr (arg : String) (choices : List String) (severalOk : Bool) :
    Except PyErr MatchResult :=
  matchArgStrCore arg (dedupKeys choices) severalOk

/-- The loop of the `Iterable` handler (`matching.py` lines 156-168):
process elements in order, extend the accumulator with each element's
result list, and wrap the first failure with its index and value. -/
def batchGo (choices : List String) : List String → Nat → Except PyErr (List String)
  | [], _ => .ok []
  | a :: rest, i =>
    match matchArgStr a choices true with
    | .error e => .error (valueError (batchElemMsg i a e.msg))
    | .ok r =>
      match batchGo choices rest (i + 1) with
      | .error e => .error e
      | .ok tail => .ok (r.toList ++ tail)

/-- The `Iterable` handler of `_match_arg` (`matching.py` lines 118-168):
dedup the choices, reject `several_ok=False`, otherwise run the loop. -/
def matchArgIter (args : List String) (choices : List String) (severalOk : Bool) :
    Except PyErr (List String) :=
  let choices := dedupKeys choices
  if !severalOk then
    .error (valueError policyMsg)
  else
    batchGo choices args 0

/-- The shape of the `arg` parameter of `match_arg`: a single `str` or a
non-`str` iterable of strings. -/
inductive Arg where
  | str (s : String)
  | iter (args : List String)

/-- Embeds `match_arg(arg, choices, several_ok=...)`: `singledispatch` on the
shape of `arg` (`matching.py` lines 14-60). -/
def matchArg (arg : Arg) (choices : List String) (severalOk : Bool) :
    Except PyErr MatchResult :=
  match arg with
  | .str s => matchArgStr s choices severalOk
  | .iter l => (matchArgIter l choices severalOk).map MatchResult.several

/-- The exception class of a failed call, `none` on success. -/
def errType : Except PyErr MatchResult → Option String
  | .error e => some e.etype
  | .ok _ => none

/-- The strings returned by a successful call, `[]` on failure. -/
def okStrings : Except PyErr MatchResult → List String
  | .ok r => r.toList
  | .error _ => []

/-! ## Helper lemmas -/

lemma listIndex_some {x : String} {t : List String} {i : Nat}
    (h : listIndex x t = some i) : i < t.length ∧ t.getD i "" = x := by
  induction t generalizing i with
  | nil => simp [listIndex] at h
  | cons c rest ih =>
    by_cases hc : c = x
    · simp [listIndex, hc] at h
      subst h
      simpa using hc
    · simp [listIndex, hc] at h
      obtain ⟨j, hj, rfl⟩ := h
      obtain ⟨h1, h2⟩ := ih hj
      exact ⟨by simp only [List.length_cons]; omega, by simpa using h2⟩

lemma listIndex_none {x : String} {t : List String} :
    listIndex x t = none ↔ x ∉ t := by
  induction t with
  | nil => simp [listIndex]
  | cons c rest ih =>
    by_cases hc : c = x
    · simp [listIndex, hc]
    · simp [listIndex, hc, ih, Ne.symm hc]

lemma listIndex_of_mem {x : String} {t : List String} (h : x ∈ t) :
    ∃ i, listIndex x t = some i := by
  cases hl : listIndex x t with
  | none => exact absurd (listIndex_none.1 hl) (not_not_intro h)
  | some i => exact ⟨i, rfl⟩

lemma listIndex_eq_findIdx {x : String} {t : List String} (h : x ∈ t) :
    listIndex x t = some (t.findIdx (fun c => c = x)) := by
  induction t with
  | nil => simp at h
  | cons c rest ih =>
    by_cases hc : c = x
    · simp [listIndex, hc, List.findIdx_cons]
    · have hx : x ∈ rest := by
        rcases List.mem_cons.1 h with h' | h'
        · exact absurd h'.symm hc
        · exact h'
      simp [listIndex, hc, List.findIdx_cons, ih hx]

lemma prefixHits_length (x : String) (t : List String) :
    (prefixHits x t).length = (t.filter (fun c => startswith c x)).length := by
  induction t with
  | nil => simp [prefixHits]
  | cons c rest ih =>
    by_cases hc : startswith c x <;>
      simp [prefixHits, List.filter_cons, hc, ih]

lemma prefixHits_mem {x : String} {t : List String} {i : Nat}
    (h : i ∈ prefixHits x t) : i < t.length ∧ startswith (t.getD i "") x = true := by
  induction t generalizing i with
  | nil => simp [prefixHits] at h
  | cons c rest ih =>
    by_cases hc : startswith c x
    · simp [prefixHits, hc] at h
      rcases h with rfl | ⟨j, hj, rfl⟩
      · simpa using hc
      · obtain ⟨h1, h2⟩ := ih hj
        exact ⟨by simp only [List.length_cons]; omega, by simpa using h2⟩
    · simp [prefixHits, hc] at h
      obtain ⟨j, hj, rfl⟩ := h
      obtain ⟨h1, h2⟩ := ih hj
      exact ⟨by simp only [List.length_cons]; omega, by simpa using h2⟩

lemma prefixHits_head {x : String} {t : List String}
    (h : prefixHits x t ≠ []) :
    (prefixHits x t).headD 0 = t.findIdx (fun c => startswith c x) := by
  induction t with
  | nil => simp [prefixHits] at h
  | cons c rest ih =>
    by_cases hc : startswith c x
    · simp [prefixHits, hc, List.findIdx_cons]
    · have hne : prefixHits x rest ≠ [] := by
        intro hnil
        exact h (by simp [prefixHits, hc, hnil])
      cases hr : prefixHits x rest with
      | nil => exact absurd hr hne
      | cons a l =>
        have := ih hne
        rw [hr] at this
        simp [prefixHits, hc, hr, List.findIdx_cons, ← this]

lemma pmatch_some {x : String} {t : List String} {n : Int}
    (h : pmatch x t = some n) (hne : n ≠ -1) :
    x ≠ "" ∧ ∃ i : Nat, n = (i : Int) ∧ i < t.length ∧
      (t.getD i "" = x ∨ startswith (t.getD i "") x = true) := by
  by_cases hx : x = ""
  · simp [pmatch, hx] at h
  · refine ⟨hx, ?_⟩
    rw [pmatch, if_neg hx] at h
    cases hli : listIndex x t with
    | some i =>
      rw [hli] at h
      obtain ⟨h1, h2⟩ := listIndex_some hli
      exact ⟨i, by simpa using h.symm, h1, Or.inl h2⟩
    | none =>
      rw [hli] at h
      cases hph : prefixHits x t with
      | nil => rw [hph] at h; simp at h
      | cons a l =>
        cases l with
        | nil =>
          rw [hph] at h
          simp at h
          obtain ⟨h1, h2⟩ := prefixHits_mem (x := x) (t := t) (i := a) (by simp [hph])
          exact ⟨a, h.symm, h1, Or.inr h2⟩
        | cons b l' =>
          rw [hph] at h
          simp at h
          exact absurd h.symm hne

lemma pmatch_of_mem {v : String} {t : List String}
    (hv : v ≠ "") (hmem : v ∈ t) :
    ∃ j : Nat, pmatch v t = some (j : Int) ∧ t.getD j "" = v := by
  obtain ⟨j, hj⟩ := listIndex_of_mem hmem
  obtain ⟨_, hget⟩ := listIndex_some hj
  exact ⟨j, by simp [pmatch, hv, hj], hget⟩

lemma mem_dedupAux {y : String} {seen l : List String} :
    y ∈ dedupAux seen l ↔ y ∈ l ∧ y ∉ seen := by
  induction l generalizing seen with
  | nil => simp [dedupAux]
  | cons x xs ih =>
    by_cases hx : x ∈ seen
    · rw [dedupAux, if_pos hx, ih]
      constructor
      · exact fun ⟨h1, h2⟩ => ⟨List.mem_cons_of_mem _ h1, h2⟩
      · rintro ⟨h1, h2⟩
        rcases List.mem_cons.1 h1 with rfl | h1
        · exact absurd hx h2
        · exact ⟨h1, h2⟩
    · rw [dedupAux, if_neg hx]
      simp only [List.mem_cons, ih, List.mem_cons]
      constructor
      · rintro (rfl | ⟨h1, h2⟩)
        · exact ⟨Or.inl rfl, hx⟩
        · exact ⟨Or.inr h1, fun hs => h2 (Or.inr hs)⟩
      · rintro ⟨rfl | h1, h2⟩
        · exact Or.inl rfl
        · by_cases hyx : y = x
          · exact Or.inl hyx
          · exact Or.inr ⟨h1, fun hs => by
              rcases hs with h' | h'
              · exact hyx h'
              · exact h2 h'⟩

lemma nodup_dedupAux (seen l : List String) : (dedupAux seen l).Nodup := by
  induction l generalizing seen with
  | nil => simp [dedupAux]
  | cons x xs ih =>
    by_cases hx : x ∈ seen
    · rw [dedupAux, if_pos hx]; exact ih seen
    · rw [dedupAux, if_neg hx]
      refine List.nodup_cons.2 ⟨fun hmem => ?_, ih (x :: seen)⟩
      exact (mem_dedupAux.1 hmem).2 (List.mem_cons_self x seen)

lemma dedupAux_eq_self {l : List String} (seen : List String)
    (h1 : l.Nodup) (h2 : ∀ y ∈ l, y ∉ seen) : dedupAux seen l = l := by
  induction l generalizing seen with
  | nil => simp [dedupAux]
  | cons x xs ih =>
    have hx : x ∉ seen := h2 x (List.mem_cons_self x xs)
    rw [dedupAux, if_neg hx]
    obtain ⟨hxxs, hnd⟩ := List.nodup_cons.1 h1
    congr 1
    refine ih (x :: seen) hnd fun y hy => ?_
    intro hs
    rcases List.mem_cons.1 hs with rfl | hs'
    · exact hxxs hy
    · exact h2 y (List.mem_cons_of_mem _ hy) hs'

lemma dedupKeys_idem (l : List String) : dedupKeys (dedupKeys l) = dedupKeys l :=
  dedupAux_eq_self [] (nodup_dedupAux [] l) (by simp)

lemma mem_of_mem_dedupKeys {y : String} {l : List String}
    (h : y ∈ dedupKeys l) : y ∈ l :=
  (mem_dedupAux.1 h).1

lemma matchArgStr_dedup (a : String) (C : List String) (severalOk : Bool) :
    matchArgStr a (dedupKeys C) severalOk = matchArgStr a C severalOk := by
  simp [matchArgStr, dedupKeys_idem]

lemma eq_empty_of_toList_eq_nil {s : String} (h : s.toList = []) : s = "" := by
  cases s with
  | mk d =>
    simp only [String.toList] at h
    subst h
    rfl

lemma ne_empty_of_startswith {s p : String}
    (h : startswith s p = true) (hp : p ≠ "") : s ≠ "" := by
  intro hs
  subst hs
  apply hp
  unfold startswith at h
  have hnil : ("" : String).toList = [] := rfl
  rw [hnil] at h
  cases hcp : p.toList with
  | nil => exact eq_empty_of_toList_eq_nil hcp
  | cons c cs =>
    rw [hcp] at h
    exact Bool.noConfusion h

lemma getD_mem_of_lt {l : List String} {i : Nat} (h : i < l.length) :
    l.getD i "" ∈ l := by
  rw [List.getD_eq_getElem l "" h]
  exact List.getElem_mem h

lemma matchArgStrCore_single_inv {q v : String} {D : List String}
    (h : matchArgStrCore q D false = .ok (.single v)) :
    q ≠ "" ∧ ∃ i : Nat, pmatch q D = some (i : Int) ∧ i < D.length ∧
      D.getD i "" = v ∧ (v = q ∨ startswith v q = true) := by
  unfold matchArgStrCore at h
  cases hp : pmatch q D with
  | none => rw [hp] at h; exact Except.noConfusion h
  | some idx =>
    rw [hp] at h
    by_cases hidx : idx = -1
    · rw [hidx] at h
      simp at h
    · simp [hidx] at h
      obtain ⟨hq, i, rfl, hlt, hcase⟩ := pmatch_some hp hidx
      have h' : D.getD i "" = v := by simpa [List.getD] using h
      rw [h'] at hcase
      exact ⟨hq, i, rfl, hlt, h', hcase⟩

lemma matchArgStrCore_mem {q v : String} {D : List String} {sOk : Bool}
    {r : MatchResult} (h : matchArgStrCore q D sOk = .ok r)
    (hv : v ∈ r.toList) : v ∈ D := by
  unfold matchArgStrCore at h
  cases hp : pmatch q D with
  | none => rw [hp] at h; exact Except.noConfusion h
  | some idx =>
    rw [hp] at h
    by_cases hidx : idx = -1
    · rw [hidx] at h
      cases sOk with
      | false => simp at h
      | true =>
        simp at h
        subst h
        simp [MatchResult.toList] at hv
        exact hv.1
    · obtain ⟨hq, i, hie, hlt, hcase⟩ := pmatch_some hp hidx
      cases sOk with
      | false =>
        simp [hidx] at h
        subst h
        simp [MatchResult.toList] at hv
        subst hv
        subst hie
        have := getD_mem_of_lt (l := D) hlt
        simpa [List.getD] using this
      | true =>
        simp [hidx] at h
        subst h
        simp [MatchResult.toList] at hv
        subst hv
        subst hie
        have := getD_mem_of_lt (l := D) hlt
        simpa [List.getD] using this

lemma batchGo_ok_of_forall (ch : List String) {args : List String}
    {results : List (List String)} (i : Nat)
    (h : List.Forall₂ (fun a l => matchArgStr a ch true = .ok (.several l)) args results) :
    batchGo ch args i = .ok results.flatten := by
  induction h generalizing i with
  | nil => simp [batchGo]
  | cons ha hrest ih => simp [batchGo, ha, ih (i + 1), MatchResult.toList]

lemma batchGo_error_at (ch : List String) (pre : List String) (a : String)
    (post : List String) (e : PyErr) (i : Nat)
    (hpre : ∀ b ∈ pre, ∃ l, matchArgStr b ch true = .ok (.several l))
    (ha : matchArgStr a ch true = .error e) :
    batchGo ch (pre ++ a :: post) i =
      .error (valueError (batchElemMsg (i + pre.length) a e.msg)) := by
  induction pre generalizing i with
  | nil => simp [batchGo, ha]
  | cons b pre' ih =>
    obtain ⟨l, hl⟩ := hpre b (List.mem_cons_self b pre')
    have hrec := ih (i + 1) (fun c hc => hpre c (List.mem_cons_of_mem _ hc))
    have harith : i + 1 + pre'.length = i + (pre'.length + 1) := by omega
    simp [batchGo, hl, hrec, MatchResult.toList, harith]

lemma batchGo_mem {ch args l : List String} {v : String} {i : Nat}
    (h : batchGo ch args i = .ok l) (hv : v ∈ l) : v ∈ ch := by
  induction args generalizing i l with
  | nil =>
    simp [batchGo] at h
    subst h
    simp at hv
  | cons a rest ih =>
    simp only [batchGo] at h
    cases hm : matchArgStr a ch true with
    | error e => rw [hm] at h; simp at h
    | ok r =>
      rw [hm] at h
      cases hb : batchGo ch rest (i + 1) with
      | error e => rw [hb] at h; simp at h
      | ok tail =>
        rw [hb] at h
        simp at h
        subst h
        rcases List.mem_append.1 hv with hv | hv
        · exact mem_of_mem_dedupKeys (matchArgStrCore_mem hm hv)
        · exact ih hb hv

lemma isPrefixOf_append_self (l r : List Char) : l.isPrefixOf (l ++ r) = true := by
  induction l with
  | nil => simp [List.isPrefixOf]
  | cons a as ih => simp [List.isPrefixOf, ih]

lemma startswith_append_self (p r : String) : startswith (p ++ r) p = true := by
  unfold startswith
  have : (p ++ r).toList = p.toList ++ r.toList := by simp [String.toList]
  rw [this]
  exact isPrefixOf_append_self p.toList r.toList

lemma noMatchMsg_startsWith (arg : String) (D : List String) :
    startswith (noMatchMsg arg D) "The provided argument '" = true := by
  have h2 : noMatchMsg arg D = "The provided argument '" ++
      (arg ++ ("' is not valid. Available choices are: " ++
        (String.intercalate ", " D ++ "."))) := by
    simp [noMatchMsg, String.append_assoc]
  rw [h2]
  exact startswith_append_self _ _

lemma ambiguousMsg_startsWith (arg : String) (hits : List String) :
    startswith (ambiguousMsg arg hits) "The argument '" = true := by
  have h2 : ambiguousMsg arg hits = "The argument '" ++
      (arg ++ ("' matches multiple choices: " ++
        (String.intercalate ", " hits ++ ". Be more specific."))) := by
    simp [ambiguousMsg, String.append_assoc]
  rw [h2]
  exact startswith_append_self _ _

lemma batchElemMsg_startsWith (i : Nat) (a inner : String) :
    startswith (batchElemMsg i a inner) "Error in iterable element " = true := by
  have h2 : batchElemMsg i a inner = "Error in iterable element " ++
      (toString i ++ (" ('" ++ (a ++ ("'): " ++ inner)))) := by
    simp [batchElemMsg, String.append_assoc]
  rw [h2]
  exact startswith_append_self _ _

lemma batchGo_error_shape {ch args : List String} {i : Nat} {e : PyErr}
    (h : batchGo ch args i = .error e) :
    ∃ j a inner, e = valueError (batchElemMsg j a inner) := by
  induction args generalizing i with
  | nil => simp [batchGo] at h
  | cons a rest ih =>
    simp only [batchGo] at h
    cases hm : matchArgStr a ch true with
    | error e' =>
      rw [hm] at h
      simp at h
      exact ⟨i, a, e'.msg, h.symm⟩
    | ok r =>
      rw [hm] at h
      cases hb : batchGo ch rest (i + 1) with
      | error e2 =>
        rw [hb] at h
        simp at h
        subst h
        exact ih hb
      | ok tail =>
        rw [hb] at h
        simp at h

/-! ## Claims -/

/-- C1: `pmatch(q, C)` follows the three-step precedence: an empty query is
`NoMatch` (`none`) before any comparison; otherwise an exact occurrence of
`q` in `C` yields `Unique` at the index of the first exact occurrence, even
when other candidates have `q` as a proper prefix; otherwise the number of
candidates starting with `q` decides the outcome: zero gives `NoMatch`
(`none`), one gives `Unique` at that index, two or more give `Ambiguous`
(`-1`). -/
theorem C1_pmatch_precedence (q : String) (C : List String) :
    (q = "" → pmatch q C = none) ∧
    (q ≠ "" → q ∈ C →
      pmatch q C = some ((C.findIdx (fun c => c = q) : Nat) : Int)) ∧
    (q ≠ "" → q ∉ C →
      ((C.filter (fun c => startswith c q)).length = 0 → pmatch q C = none) ∧
      ((C.filter (fun c => startswith c q)).length = 1 →
        pmatch q C = some ((C.findIdx (fun c => startswith c q) : Nat) : Int)) ∧
      (2 ≤ (C.filter (fun c => startswith c q)).length →
        pmatch q C = some (-1))) := by
  refine ⟨fun hq => by simp [pmatch, hq], fun hq hmem => ?_, fun hq hmem => ?_⟩
  · simp [pmatch, hq, listIndex_eq_findIdx hmem]
  · have hnone : listIndex q C = none := listIndex_none.2 hmem
    refine ⟨fun hk => ?_, fun hk => ?_, fun hk => ?_⟩
    · have : prefixHits q C = [] := by
        rw [← List.length_eq_zero, prefixHits_length, hk]
      simp [pmatch, hq, hnone, this]
    · have hlen : (prefixHits q C).length = 1 := by
        rw [prefixHits_length, hk]
      obtain ⟨a, ha⟩ := List.length_eq_one.1 hlen
      have hhd := prefixHits_head (x := q) (t := C) (by simp [ha])
      rw [ha] at hhd
      simp at hhd
      simp [pmatch, hq, hnone, ha, hhd]
    · have hlen : 2 ≤ (prefixHits q C).length := by
        rw [prefixHits_length]; exact hk
      cases hph : prefixHits q C with
      | nil => rw [hph] at hlen; simp at hlen
      | cons a l =>
        cases l with
        | nil => rw [hph] at hlen; simp at hlen
        | cons b l' => simp [pmatch, hq, hnone, hph]

/-- Witness for C1 at the spec's concrete scenario: the empty query, an
exact match, a unique prefix match, no match, and an ambiguous query over
`["mean", "median", "mode"]`. -/
theorem C1_pmatch_precedence_witness :
    pmatch "" ["mean", "median", "mode"] = none ∧
    pmatch "median" ["mean", "median", "mode"] = some 1 ∧
    pmatch "med" ["mean", "median", "mode"] = some 1 ∧
    pmatch "xyz" ["mean", "median", "mode"] = none ∧
    pmatch "m" ["mean", "median", "mode"] = some (-1) := by
  refine ⟨(C1_pmatch_precedence "" ["mean", "median", "mode"]).1 rfl, ?_, ?_, ?_, ?_⟩
  · exact ((C1_pmatch_precedence "median" ["mean", "median", "mode"]).2.1
      (by decide) (by decide)).trans (by decide)
  · exact (((C1_pmatch_precedence "med" ["mean", "median", "mode"]).2.2
      (by decide) (by decide)).2.1 (by decide)).trans (by decide)
  · exact ((C1_pmatch_precedence "xyz" ["mean", "median", "mode"]).2.2
      (by decide) (by decide)).1 (by decide)
  · exact (((C1_pmatch_precedence "m" ["mean", "median", "mode"]).2.2
      (by decide) (by decide)).2.2 (by decide))

/-- C2: `pmatch("", C)` is `NoMatch` (`none`) for every candidate list `C`,
including lists containing the empty string: the empty-query check precedes
the exact-equality scan. -/
theorem C2_empty_query_never_matches (C : List String) :
    pmatch "" C = none := by
  simp [pmatch]

/-- C5: a non-string iterable query with `several_ok=False` fails
immediately with the policy error; the result is the same fixed error for
every element list, so no element is ever matched or reported. -/
theorem C5_batch_requires_several_ok (args choices : List String) :
    matchArg (.iter args) choices false = .error (valueError policyMsg) := rfl

/-- C8: duplicate candidates never change the outcome: for every query
shape, policy flag and strings `a`, `b`, matching against `[a, b, a]` gives
exactly the same result or failure as matching against `[a, b]`, because
choices are deduplicated with stable first-occurrence order before any
matching. -/
theorem C8_duplicate_choices_irrelevant (arg : Arg) (severalOk : Bool) (a b : String) :
    matchArg arg [a, b, a] severalOk = matchArg arg [a, b] severalOk := by
  have hd : dedupKeys [a, b, a] = dedupKeys [a, b] := by
    by_cases hab : b = a <;> simp [dedupKeys, dedupAux, hab]
  cases arg with
  | str s => simp [matchArg, matchArgStr, hd]
  | iter l => simp [matchArg, matchArgIter, hd]

/-- C3: for a single-string query with `several_ok=False`: a `Unique(i)`
outcome of `pmatch` over the deduplicated choices returns the `i`-th
deduplicated choice; a `NoMatch` outcome fails with the message built from
the query and the comma-joined deduplicated choices; an `Ambiguous` outcome
fails with the message listing exactly the deduplicated candidates `c`
satisfying `c.startswith(arg)`, recomputed by a `startswith` filter. -/
theorem C3_single_strict_outcomes (arg : String) (choices : List String) :
    (∀ i : Nat, pmatch arg (dedupKeys choices) = some (i : Int) →
      matchArg (.str arg) choices false =
        .ok (.single ((dedupKeys choices).getD i ""))) ∧
    (pmatch arg (dedupKeys choices) = none →
      matchArg (.str arg) choices false =
        .error (valueError (noMatchMsg arg (dedupKeys choices)))) ∧
    (pmatch arg (dedupKeys choices) = some (-1) →
      matchArg (.str arg) choices false =
        .error (valueError (ambiguousMsg arg
          ((dedupKeys choices).filter (fun c => startswith c arg))))) := by
  refine ⟨fun i h => ?_, fun h => ?_, fun h => ?_⟩
  · have hne : ¬((i : Int) = -1) := by omega
    simp [matchArg, matchArgStr, matchArgStrCore, h, hne]
  · simp [matchArg, matchArgStr, matchArgStrCore, h]
  · simp [matchArg, matchArgStr, matchArgStrCore, h]

/-- Witness for C3: the spec's scenario 2, a query matching no candidate. -/
theorem C3_single_strict_witness :
    matchArg (.str "orange") ["apple", "banana", "cherry"] false =
      .error (valueError (noMatchMsg "orange" (dedupKeys ["apple", "banana", "cherry"]))) :=
  (C3_single_strict_outcomes "orange" ["apple", "banana", "cherry"]).2.1 rfl

/-- C4: for a single-string query with `several_ok=True`: a `Unique(i)`
outcome returns the one-element list holding the `i`-th deduplicated
choice; an `Ambiguous` outcome does not fail and returns all deduplicated
candidates starting with the query; a `NoMatch` outcome still fails with
the no-match error — `several_ok=True` never suppresses it. -/
theorem C4_single_several_ok_outcomes (arg : String) (choices : List String) :
    (∀ i : Nat, pmatch arg (dedupKeys choices) = some (i : Int) →
      matchArg (.str arg) choices true =
        .ok (.several [(dedupKeys choices).getD i ""])) ∧
    (pmatch arg (dedupKeys choices) = some (-1) →
      matchArg (.str arg) choices true =
        .ok (.several ((dedupKeys choices).filter (fun c => startswith c arg)))) ∧
    (pmatch arg (dedupKeys choices) = none →
      matchArg (.str arg) choices true =
        .error (valueError (noMatchMsg arg (dedupKeys choices)))) := by
  refine ⟨fun i h => ?_, fun h => ?_, fun h => ?_⟩
  · have hne : ¬((i : Int) = -1) := by omega
    simp [matchArg, matchArgStr, matchArgStrCore, h, hne]
  · simp [matchArg, matchArgStr, matchArgStrCore, h]
  · simp [matchArg, matchArgStr, matchArgStrCore, h]

/-- Witness for C4: the spec's scenario 4, an ambiguous query returned as a
multi-result. -/
theorem C4_single_several_ok_witness :
    matchArg (.str "ap") ["apple", "apricot", "banana"] true =
      .ok (.several ["apple", "apricot"]) :=
  ((C4_single_several_ok_outcomes "ap" ["apple", "apricot", "banana"]).2.1 rfl).trans rfl

/-- C6: a batch query with `several_ok=True` processes elements in order
through the single-string `several_ok=True` path and returns the flat
concatenation of the per-element result lists, with no deduplication of
results.  If an element fails while all elements before it succeed, the
whole batch fails with the element's failure message prefixed by its
0-based position (`pre.length`) and literal value; the elements after it
(`post`) are arbitrary, so none of them is processed. -/
theorem C6_batch_flatten_and_fail_fast (args choices : List String) :
    (∀ results : List (List String),
      List.Forall₂ (fun a l => matchArgStr a choices true = .ok (.several l))
        args results →
      matchArg (.iter args) choices true = .ok (.several results.flatten)) ∧
    (∀ pre a post e, args = pre ++ a :: post →
      (∀ b ∈ pre, ∃ l, matchArgStr b choices true = .ok (.several l)) →
      matchArgStr a choices true = .error e →
      matchArg (.iter args) choices true =
        .error (valueError (batchElemMsg pre.length a e.msg))) := by
  constructor
  · intro results h
    have h' := h.imp fun a l hal => (matchArgStr_dedup _ _ _).trans hal
    have hb := batchGo_ok_of_forall (dedupKeys choices) 0 h'
    simp [matchArg, matchArgIter, hb, Except.map]
  · rintro pre a post e rfl hpre ha
    have hpre' : ∀ b ∈ pre, ∃ l,
        matchArgStr b (dedupKeys choices) true = .ok (.several l) :=
      fun b hb => (hpre b hb).imp fun l hl => (matchArgStr_dedup _ _ _).trans hl
    have ha' : matchArgStr a (dedupKeys choices) true = .error e :=
      (matchArgStr_dedup _ _ _).trans ha
    have hb := batchGo_error_at (dedupKeys choices) pre a post e 0 hpre' ha'
    simp [matchArg, matchArgIter, hb, Except.map]

/-- Witness for C6: a successful batch whose ambiguous element contributes
two entries to the flat result, and the spec's scenario 5, a batch failing
fast at element 1 (`"xyz"`) with the index and value in the message. -/
theorem C6_batch_flatten_and_fail_fast_witness :
    matchArg (.iter ["ban", "ap"]) ["apple", "apricot", "banana"] true =
      .ok (.several ["banana", "apple", "apricot"]) ∧
    matchArg (.iter ["ban", "xyz"]) ["apple", "banana", "cherry"] true =
      .error (valueError (batchElemMsg 1 "xyz"
        (noMatchMsg "xyz" ["apple", "banana", "cherry"]))) := by
  constructor
  · exact ((C6_batch_flatten_and_fail_fast ["ban", "ap"] ["apple", "apricot", "banana"]).1
      [["banana"], ["apple", "apricot"]]
      (List.Forall₂.cons rfl (List.Forall₂.cons rfl List.Forall₂.nil))).trans rfl
  · refine ((C6_batch_flatten_and_fail_fast ["ban", "xyz"] ["apple", "banana", "cherry"]).2
      ["ban"] "xyz" [] (valueError (noMatchMsg "xyz" ["apple", "banana", "cherry"]))
      rfl ?_ rfl).trans rfl
    intro b hb
    rw [List.mem_singleton] at hb
    subst hb
    exact ⟨["banana"], rfl⟩

/-- C9: idempotence of resolution: when a single-string strict call
succeeds with the string `v`, feeding `v` back as the query succeeds with
`v` again — `v` is an element of the deduplicated choices, so exact
equality wins. -/
theorem C9_idempotent_resolution (q v : String) (C : List String)
    (h : matchArg (.str q) C false = .ok (.single v)) :
    matchArg (.str v) C false = .ok (.single v) := by
  have h' : matchArgStrCore q (dedupKeys C) false = .ok (.single v) := h
  obtain ⟨hq, i, hp, hlt, hget, hcase⟩ := matchArgStrCore_single_inv h'
  have hvne : v ≠ "" := by
    rcases hcase with rfl | hc
    · exact hq
    · exact ne_empty_of_startswith hc hq
  have hvmem : v ∈ dedupKeys C := hget ▸ getD_mem_of_lt hlt
  obtain ⟨j, hpj, hgetj⟩ := pmatch_of_mem hvne hvmem
  show matchArgStrCore v (dedupKeys C) false = .ok (.single v)
  unfold matchArgStrCore
  rw [hpj]
  have hne : ¬((j : Int) = -1) := by omega
  simp [hne]
  simpa [List.getD] using hgetj

/-- Witness for C9: the spec's scenario 1 fed back: resolving `"ban"`
yields `"banana"`, and resolving `"banana"` yields `"banana"` again. -/
theorem C9_idempotent_resolution_witness :
    matchArg (.str "banana") ["apple", "banana", "cherry"] false =
      .ok (.single "banana") :=
  C9_idempotent_resolution "ban" "banana" ["apple", "banana", "cherry"] rfl

/-- C10: result-membership invariant: every string returned by a
successful `match_arg` call — the single string in strict mode, every list
element in `several_ok` mode, and every entry accumulated from a batch —
is an element of the input choices list. -/
theorem C10_results_subset_choices (arg : Arg) (choices : List String)
    (severalOk : Bool) (v : String)
    (h : v ∈ okStrings (matchArg arg choices severalOk)) : v ∈ choices := by
  cases arg with
  | str s =>
    cases hm : matchArgStr s choices severalOk with
    | error e =>
      simp only [matchArg] at h
      rw [hm] at h
      simp [okStrings] at h
    | ok r =>
      simp only [matchArg] at h
      rw [hm] at h
      simp only [okStrings] at h
      exact mem_of_mem_dedupKeys (matchArgStrCore_mem hm h)
  | iter args =>
    cases severalOk with
    | false =>
      have he : matchArg (.iter args) choices false = .error (valueError policyMsg) := rfl
      rw [he] at h
      simp [okStrings] at h
    | true =>
      have he : matchArg (.iter args) choices true =
          (batchGo (dedupKeys choices) args 0).map MatchResult.several := rfl
      rw [he] at h
      cases hb : batchGo (dedupKeys choices) args 0 with
      | error e =>
        rw [hb] at h
        simp [okStrings, Except.map] at h
      | ok l =>
        rw [hb] at h
        simp only [okStrings, Except.map, MatchResult.toList] at h
        exact mem_of_mem_dedupKeys (batchGo_mem hb h)

/-- Witness for C10: a strict resolution and a batch resolution, each
returning only elements of the input choices. -/
theorem C10_results_subset_choices_witness :
    "banana" ∈ (["apple", "banana", "cherry"] : List String) :=
  C10_results_subset_choices (.str "ban") ["apple", "banana", "cherry"] false "banana"
    (by decide)

/-- Counterexample to C7: the four failure conditions — no match,
ambiguous match with `several_ok=False`, batch input with
`several_ok=False`, and a failing batch element — all raise the same
Python exception class, `ValueError`; there are no four distinct,
distinguishable error types, so a caller cannot tell the conditions apart
by the type of the raised error. -/
theorem C7_counterexample_same_type :
    errType (matchArg (.str "orange") ["apple", "apricot"] false) = some "ValueError" ∧
    errType (matchArg (.str "ap") ["apple", "apricot"] false) = some "ValueError" ∧
    errType (matchArg (.iter ["ap"]) ["apple", "apricot"] false) = some "ValueError" ∧
    errType (matchArg (.iter ["xyz"]) ["apple", "apricot"] true) = some "ValueError" :=
  ⟨rfl, rfl, rfl, rfl⟩

/-- C7 as amended: the four failure conditions are all signaled with the
single exception type `ValueError`; a caller can tell them apart only by
the message text, whose fixed leading text differs per condition: no match
starts with `"The provided argument '"`, ambiguity with `"The argument '"`,
the batch policy failure with `"Iterable input"`, and a failing batch
element with `"Error in iterable element "`. -/
theorem C7_amended_single_exception_type (q : String) (C args : List String) (e : PyErr) :
    (pmatch q (dedupKeys C) = none → matchArg (.str q) C false = .error e →
      e.etype = "ValueError" ∧
        startswith e.msg "The provided argument '" = true) ∧
    (pmatch q (dedupKeys C) = some (-1) → matchArg (.str q) C false = .error e →
      e.etype = "ValueError" ∧
        startswith e.msg "The argument '" = true) ∧
    (matchArg (.iter args) C false = .error e →
      e.etype = "ValueError" ∧
        startswith e.msg "Iterable input" = true) ∧
    (matchArg (.iter args) C true = .error e →
      e.etype = "ValueError" ∧
        startswith e.msg "Error in iterable element " = true) := by
  refine ⟨fun hp he => ?_, fun hp he => ?_, fun he => ?_, fun he => ?_⟩
  · have hm : matchArg (.str q) C false =
        .error (valueError (noMatchMsg q (dedupKeys C))) := by
      simp [matchArg, matchArgStr, matchArgStrCore, hp]
    rw [hm] at he
    injection he with he
    subst he
    exact ⟨rfl, noMatchMsg_startsWith q (dedupKeys C)⟩
  · have hm : matchArg (.str q) C false =
        .error (valueError (ambiguousMsg q
          ((dedupKeys C).filter (fun c => startswith c q)))) := by
      simp [matchArg, matchArgStr, matchArgStrCore, hp]
    rw [hm] at he
    injection he with he
    subst he
    exact ⟨rfl, ambiguousMsg_startsWith q _⟩
  · have hm : matchArg (.iter args) C false = .error (valueError policyMsg) := rfl
    rw [hm] at he
    injection he with he
    subst he
    exact ⟨rfl, by decide⟩
  · have hm : matchArg (.iter args) C true =
        (batchGo (dedupKeys C) args 0).map MatchResult.several := rfl
    rw [hm] at he
    cases hb : batchGo (dedupKeys C) args 0 with
    | ok l => rw [hb] at he; simp [Except.map] at he
    | error e2 =>
      rw [hb] at he
      simp [Except.map] at he
      subst he
      obtain ⟨j, a, inner, rfl⟩ := batchGo_error_shape hb
      exact ⟨rfl, batchElemMsg_startsWith j a inner⟩

/-- Witness for the amended C7: the ambiguous condition at a concrete
input carries exception type `ValueError` and the ambiguity message
prefix. -/
theorem C7_amended_single_exception_type_witness :
    (valueError (ambiguousMsg "ap" ["apple", "apricot"])).etype = "ValueError" ∧
    startswith (valueError (ambiguousMsg "ap" ["apple", "apricot"])).msg
      "The argument '" = true :=
  (C7_amended_single_exception_type "ap" ["apple", "apricot"] []
    (valueError (ambiguousMsg "ap" ["apple", "apricot"]))).2.1 rfl rfl

end Ruru
